import Mathlib

/-!
Shallow embedding of the AuctionSealFHE contract (sealed-bid batch auction
settled with homomorphic comparison over encrypted bids).

Modelling conventions:
* `euint32` / `ebool` ciphertexts are symbolic handles (`H`).  In the FHE
  coprocessor model, operation results have deterministic handles derived from
  the operation and its inputs, so re-running the same operations over the same
  inputs yields the same handles; `H` captures exactly that.
* Plaintext semantics of a handle are given by an environment `env` mapping
  externally submitted ciphertext ids to their 32-bit plaintexts (`evalH`).
* `keccak256(abi.encode(cts, address(this)))` is modelled as the injective
  constructor `StateHash.keccak` (collision-freeness assumption on keccak);
  the all-zero `bytes32` default of an untouched storage slot is
  `StateHash.zero`, which `keccak` never returns.
* Solidity mappings are total functions with the zero default; addresses are
  naturals (`0` is the zero address); `block.timestamp` and `msg.sender` are
  explicit arguments; `revert E` is `Except.error E`; emitted events are
  returned alongside the new state.
* The ternary `isGreater ? bids[i].bidder : winner` branches on the encrypted
  boolean; per the reference semantics this consumes the comparison's
  underlying plaintext truth value, so the winner branch uses `evalH`.
* `FHE.requestDecryption` is the external oracle: the request id it returns is
  an explicit argument of `findHighestBidder`; `FHE.checkSignatures` succeeding
  or throwing is an explicit `proofValid` argument of `myCallback`, and the
  abi-decoded `uint32` cleartext is an explicit `cleartext` argument.
-/

namespace AuctionSeal

abbrev Address := Nat

/-- Symbolic ciphertext handles: externally submitted ciphertexts, and the
deterministic results of the homomorphic operations `ge` and `select` used by
the contract. -/
inductive H where
  | ext (n : Nat)
  | ge (a b : H)
  | select (c a b : H)
deriving DecidableEq

/-- Plaintext semantics of a handle under an environment giving the 32-bit
plaintext of each externally submitted ciphertext. -/
def evalH (env : Nat → Nat) : H → Nat
  | .ext n => env n % 2 ^ 32
  | .ge a b => if evalH env b ≤ evalH env a then 1 else 0
  | .select c a b => if evalH env c ≠ 0 then evalH env a else evalH env b

/-- `euint32.isInitialized`: the zero handle is the uninitialized one. -/
def isInitialized : H → Bool
  | .ext n => n != 0
  | _ => true

/-- A `bytes32` entry of the ciphertext-handle list passed to the oracle:
either a ciphertext handle (`maxBid.toBytes32()`) or the keccak hash of a
winner address (`keccak256(abi.encode(winner))`). -/
inductive B32 where
  | handle (h : H)
  | addrHash (a : Address)
deriving DecidableEq

/-- The fingerprint `_hashCiphertexts(cts) = keccak256(abi.encode(cts,
address(this)))`, with keccak modelled injectively; `zero` is the untouched
storage default, never a keccak output. -/
inductive StateHash where
  | zero
  | keccak (cts : List B32) (self : Address)
deriving DecidableEq

structure Bid where
  bidder : Address
  encryptedBidAmount : H
deriving DecidableEq

structure DecryptionContext where
  batchId : Nat
  stateHash : StateHash
  processed : Bool
deriving DecidableEq

structure ContractState where
  owner : Address
  isProvider : Address → Bool
  paused : Bool
  cooldownSeconds : Nat
  lastSubmissionTime : Address → Nat
  lastDecryptionRequestTime : Address → Nat
  bids : List Bid
  currentBatchId : Nat
  batchOpen : Bool
  decryptionContexts : Nat → DecryptionContext
  selfAddr : Address

inductive Err where
  | NotOwner
  | NotProvider
  | PausedError
  | CooldownActive
  | BatchNotOpen
  | NoBidsInBatch
  | ReplayAttempt
  | StateMismatch
  | InvalidProof
  | BidSubmissionFailed
  | DecryptionFailed
  | RequireViolation
deriving DecidableEq

inductive Event where
  | OwnershipTransferred (previousOwner newOwner : Address)
  | ProviderAdded (provider : Address)
  | ProviderRemoved (provider : Address)
  | Paused (account : Address)
  | Unpaused (account : Address)
  | CooldownSecondsSet (oldCooldownSeconds newCooldownSeconds : Nat)
  | BatchOpened (batchId : Nat)
  | BatchClosed (batchId : Nat)
  | BidSubmitted (bidder : Address) (batchId : Nat) (encryptedBidAmount : H)
  | DecryptionRequested (requestId batchId : Nat) (stateHash : StateHash)
  | AuctionSettled (requestId batchId : Nat) (winner : Address)
      (winningBidAmount : Nat)
deriving DecidableEq

abbrev Outcome := Except Err (ContractState × List Event)

/-- The constructor: deployer becomes owner and a provider, default cooldown
of 60 seconds (the constructor also emits `ProviderAdded(deployer)`). -/
def initialState (deployer selfAddr : Address) : ContractState where
  owner := deployer
  isProvider := Function.update (fun _ => false) deployer true
  paused := false
  cooldownSeconds := 60
  lastSubmissionTime := fun _ => 0
  lastDecryptionRequestTime := fun _ => 0
  bids := []
  currentBatchId := 0
  batchOpen := false
  decryptionContexts := fun _ => ⟨0, StateHash.zero, false⟩
  selfAddr := selfAddr

def transferOwnership (s : ContractState) (sender newOwner : Address) :
    Outcome :=
  if sender ≠ s.owner then .error .NotOwner
  else if newOwner = 0 then .error .RequireViolation
  else .ok ({ s with owner := newOwner },
    [.OwnershipTransferred s.owner newOwner])

def addProvider (s : ContractState) (sender provider : Address) : Outcome :=
  if sender ≠ s.owner then .error .NotOwner
  else if s.isProvider provider then .ok (s, [])
  else .ok ({ s with isProvider := Function.update s.isProvider provider true },
    [.ProviderAdded provider])

def removeProvider (s : ContractState) (sender provider : Address) : Outcome :=
  if sender ≠ s.owner then .error .NotOwner
  else if s.isProvider provider then
    .ok ({ s with isProvider := Function.update s.isProvider provider false },
      [.ProviderRemoved provider])
  else .ok (s, [])

def pause (s : ContractState) (sender : Address) : Outcome :=
  if sender ≠ s.owner then .error .NotOwner
  else if s.paused then .error .PausedError
  else .ok ({ s with paused := true }, [.Paused sender])

def unpause (s : ContractState) (sender : Address) : Outcome :=
  if sender ≠ s.owner then .error .NotOwner
  else .ok ({ s with paused := false }, [.Unpaused sender])

def setCooldownSeconds (s : ContractState) (sender : Address)
    (newCooldownSeconds : Nat) : Outcome :=
  if sender ≠ s.owner then .error .NotOwner
  else if newCooldownSeconds = 0 then .error .RequireViolation
  else .ok ({ s with cooldownSeconds := newCooldownSeconds },
    [.CooldownSecondsSet s.cooldownSeconds newCooldownSeconds])

def openBatch (s : ContractState) (sender : Address) : Outcome :=
  if sender ≠ s.owner then .error .NotOwner
  else if s.paused then .error .PausedError
  else .ok ({ s with currentBatchId := s.currentBatchId + 1,
                     batchOpen := true, bids := [] },
    [.BatchOpened (s.currentBatchId + 1)])

def closeBatch (s : ContractState) (sender : Address) : Outcome :=
  if sender ≠ s.owner then .error .NotOwner
  else if s.paused then .error .PausedError
  else if !s.batchOpen then .error .BatchNotOpen
  else .ok ({ s with batchOpen := false }, [.BatchClosed s.currentBatchId])

/-- `submitBid`: the modifiers run in source order `onlyProvider`,
`whenNotPaused`, `checkSubmissionCooldown`, then the body. -/
def submitBid (s : ContractState) (sender : Address) (now : Nat) (amt : H) :
    Outcome :=
  if !s.isProvider sender then .error .NotProvider
  else if s.paused then .error .PausedError
  else if now < s.lastSubmissionTime sender + s.cooldownSeconds then
    .error .CooldownActive
  else if !s.batchOpen then .error .BatchNotOpen
  else if !isInitialized amt then .error .BidSubmissionFailed
  else .ok ({ s with
      lastSubmissionTime := Function.update s.lastSubmissionTime sender now,
      bids := s.bids ++ [⟨sender, amt⟩] },
    [.BidSubmitted sender s.currentBatchId amt])

/-- One iteration of the tournament loop shared by `findHighestBidder` and
`myCallback`: `isGreater = bids[i].ge(maxBid)`; the new max is the oblivious
select, the new winner branches on the comparison's plaintext truth value. -/
def tournamentStep (env : Nat → Nat) (acc : H × Address) (b : Bid) :
    H × Address :=
  (H.select (H.ge b.encryptedBidAmount acc.1) b.encryptedBidAmount acc.1,
   if evalH env (H.ge b.encryptedBidAmount acc.1) ≠ 0 then b.bidder else acc.2)

/-- The tournament fold over the ledger, started from `bids[0]`. -/
def tournament (env : Nat → Nat) (first : Bid) (rest : List Bid) :
    H × Address :=
  rest.foldl (tournamentStep env) (first.encryptedBidAmount, first.bidder)

/-- The ordered handle list `[maxBid.toBytes32(), keccak256(abi.encode(winner))]`
built by both `findHighestBidder` and `myCallback`. -/
def ctsOf (r : H × Address) : List B32 :=
  [B32.handle r.1, B32.addrHash r.2]

/-- The tournament over a whole ledger, started (as in the source loop) from
`bids[0]`; the default bid is irrelevant, both callers guard non-emptiness. -/
def tournamentOf (env : Nat → Nat) (bids : List Bid) : H × Address :=
  tournament env (bids.headD ⟨0, H.ext 0⟩) bids.tail

/-- The fingerprint both `findHighestBidder` and `myCallback` compute over
the current ledger. -/
def ledgerHash (env : Nat → Nat) (s : ContractState) : StateHash :=
  StateHash.keccak (ctsOf (tournamentOf env s.bids)) s.selfAddr

/-- `findHighestBidder`: modifiers `onlyOwner`, `whenNotPaused`,
`checkDecryptionCooldown` in source order; `requestId` is the id returned by
the external `FHE.requestDecryption`. -/
def findHighestBidder (env : Nat → Nat) (s : ContractState)
    (sender : Address) (now requestId : Nat) : Outcome :=
  if sender ≠ s.owner then .error .NotOwner
  else if s.paused then .error .PausedError
  else if now < s.lastDecryptionRequestTime sender + s.cooldownSeconds then
    .error .CooldownActive
  else if s.bids = [] then .error .NoBidsInBatch
  else
    .ok ({ s with
        decryptionContexts := Function.update s.decryptionContexts requestId
          ⟨s.currentBatchId, ledgerHash env s, false⟩,
        lastDecryptionRequestTime :=
          Function.update s.lastDecryptionRequestTime sender now },
      [.DecryptionRequested requestId s.currentBatchId (ledgerHash env s)])

/-- `myCallback`: replay check, tournament re-run over the ledger as it exists
now, fingerprint recheck, then proof verification; `cleartext` is the
abi-decoded `uint32` winning amount, `proofValid` is whether
`FHE.checkSignatures` succeeds. -/
def myCallback (env : Nat → Nat) (s : ContractState) (requestId : Nat)
    (cleartext : Nat) (proofValid : Bool) : Outcome :=
  if (s.decryptionContexts requestId).processed then .error .ReplayAttempt
  else if s.bids = [] then .error .NoBidsInBatch
  else if ledgerHash env s ≠ (s.decryptionContexts requestId).stateHash then
    .error .StateMismatch
  else if proofValid then
    .ok ({ s with
        decryptionContexts := Function.update s.decryptionContexts
          requestId { s.decryptionContexts requestId with processed := true } },
      [.AuctionSettled requestId (s.decryptionContexts requestId).batchId
        (tournamentOf env s.bids).2 cleartext])
  else .error .InvalidProof

/-- Sequencing of contract calls, accumulating emitted events. -/
def andThen (r : Outcome) (f : ContractState → Outcome) : Outcome :=
  match r with
  | .error e => .error e
  | .ok (s, evts) =>
    match f s with
    | .error e => .error e
    | .ok (s2, evts2) => .ok (s2, evts ++ evts2)

/-! Plaintext-level characterization of the tournament, used to state and
prove functional correctness of the fold. -/

def evalBid (env : Nat → Nat) (b : Bid) : Nat := evalH env b.encryptedBidAmount

/-- Plaintext mirror of one tournament iteration: the running pair of
(max plaintext so far, its bidder). -/
def specFold (env : Nat → Nat) (acc : Nat × Address) : List Bid → Nat × Address
  | [] => acc
  | b :: bs =>
    specFold env
      (if acc.1 ≤ evalBid env b then (evalBid env b, b.bidder) else acc) bs

/-- Running maximum of the plaintexts of a bid list, seeded with `m`. -/
def maxPlainFrom (env : Nat → Nat) (m : Nat) (bs : List Bid) : Nat :=
  bs.foldl (fun acc b => Nat.max acc (evalBid env b)) m

/-- Whether a bid's plaintext equals a given maximum. -/
def isMaxBid (env : Nat → Nat) (M : Nat) (b : Bid) : Bool :=
  evalBid env b == M

/-- The true maximum of the underlying plaintexts of a ledger (the spec's
words: the maximum of all bids' plaintexts). -/
def specMaxPlain (env : Nat → Nat) (ledger : List Bid) : Nat :=
  maxPlainFrom env 0 ledger

/-- The spec's words for the tie-break: the last-submitted bidder among the
bids whose plaintext attains the maximum. -/
def specLastMaxBidder (env : Nat → Nat) (ledger : List Bid) (dflt : Address) :
    Address :=
  (((ledger.filter (isMaxBid env (specMaxPlain env ledger))).getLast?).map
    Bid.bidder).getD dflt

theorem nat_max_eq_right {a b : Nat} (h : a ≤ b) : Nat.max a b = b :=
  Nat.max_eq_right h

theorem nat_max_eq_left {a b : Nat} (h : b ≤ a) : Nat.max a b = a :=
  Nat.max_eq_left h

theorem specFold_nil (env : Nat → Nat) (acc : Nat × Address) :
    specFold env acc [] = acc := rfl

theorem specFold_cons (env : Nat → Nat) (acc : Nat × Address) (b : Bid)
    (bs : List Bid) :
    specFold env acc (b :: bs) =
      specFold env
        (if acc.1 ≤ evalBid env b then (evalBid env b, b.bidder) else acc)
        bs := rfl

theorem maxPlainFrom_cons (env : Nat → Nat) (m : Nat) (b : Bid)
    (bs : List Bid) :
    maxPlainFrom env m (b :: bs) =
      maxPlainFrom env (Nat.max m (evalBid env b)) bs := rfl

/-- The tournament fold refines the plaintext mirror fold. -/
theorem foldl_tournamentStep_spec (env : Nat → Nat) :
    ∀ (bs : List Bid) (a : H) (w : Address),
      (evalH env ((bs.foldl (tournamentStep env) (a, w)).1),
        (bs.foldl (tournamentStep env) (a, w)).2) =
      specFold env (evalH env a, w) bs := by
  intro bs
  induction bs with
  | nil => intro a w; rfl
  | cons b bs ih =>
    intro a w
    simp only [List.foldl_cons, tournamentStep]
    rw [ih]
    by_cases h : evalH env a ≤ evalH env b.encryptedBidAmount
    · simp [specFold_cons, evalH, evalBid, h]
    · simp [specFold_cons, evalH, evalBid, h]

theorem specFold_fst (env : Nat → Nat) :
    ∀ (bs : List Bid) (m : Nat) (w : Address),
      (specFold env (m, w) bs).1 = maxPlainFrom env m bs := by
  intro bs
  induction bs with
  | nil => intro m w; rfl
  | cons b bs ih =>
    intro m w
    rw [specFold_cons, maxPlainFrom_cons]
    by_cases h : m ≤ evalBid env b
    · rw [if_pos h, ih, nat_max_eq_right h]
    · rw [if_neg h, ih, nat_max_eq_left (le_of_not_le h)]

theorem le_maxPlainFrom (env : Nat → Nat) :
    ∀ (bs : List Bid) (m : Nat), m ≤ maxPlainFrom env m bs := by
  intro bs
  induction bs with
  | nil => intro m; exact le_refl m
  | cons b bs ih =>
    intro m
    rw [maxPlainFrom_cons]
    exact le_trans (Nat.le_max_left m (evalBid env b))
      (ih (Nat.max m (evalBid env b)))

/-- The running maximum is attained: it is the seed or some bid's plaintext. -/
theorem maxPlainFrom_attained (env : Nat → Nat) :
    ∀ (bs : List Bid) (m : Nat),
      maxPlainFrom env m bs = m ∨
        ∃ b ∈ bs, evalBid env b = maxPlainFrom env m bs := by
  intro bs
  induction bs with
  | nil => intro m; exact Or.inl rfl
  | cons b bs ih =>
    intro m
    rw [maxPlainFrom_cons]
    rcases ih (Nat.max m (evalBid env b)) with h | ⟨c, hc, hceq⟩
    · by_cases hm : m ≤ evalBid env b
      · refine Or.inr ⟨b, List.mem_cons_self b bs, ?_⟩
        rw [h, nat_max_eq_right hm]
      · refine Or.inl ?_
        rw [h, nat_max_eq_left (le_of_not_le hm)]
    · exact Or.inr ⟨c, List.mem_cons_of_mem b hc, hceq⟩

/-- Helper: prepending a bid does not change the last filtered element nor
which default applies, whenever the tail's filtering is non-empty. -/
theorem lastFiltered_cons (p : Bid → Bool) (b : Bid) (l : List Bid)
    (d e : Address) (h : l.filter p ≠ []) :
    ((((b :: l).filter p).getLast?).map Bid.bidder).getD d =
      (((l.filter p).getLast?).map Bid.bidder).getD e := by
  rcases hfl : l.filter p with _ | ⟨c, cs⟩
  · exact absurd hfl h
  · rw [List.filter_cons, hfl]
    obtain ⟨x, hx⟩ := Option.isSome_iff_exists.mp
      (List.getLast?_isSome.mpr (List.cons_ne_nil c cs))
    by_cases hpb : p b
    · rw [if_pos hpb, List.getLast?_cons_cons, hx]
      rfl
    · rw [if_neg hpb, hx]
      rfl

/-- The winner component of the mirror fold is the last bid attaining the
final maximum, defaulting to the seed winner when no bid attains it. -/
theorem specFold_snd (env : Nat → Nat) :
    ∀ (bs : List Bid) (m : Nat) (w : Address),
      (specFold env (m, w) bs).2 =
        (((bs.filter (isMaxBid env (maxPlainFrom env m bs))).getLast?).map
          Bid.bidder).getD w := by
  intro bs
  induction bs with
  | nil => intro m w; rfl
  | cons b bs ih =>
    intro m w
    rw [specFold_cons, maxPlainFrom_cons]
    by_cases h : m ≤ evalBid env b
    · rw [if_pos h, nat_max_eq_right h, ih]
      by_cases hfil : bs.filter (isMaxBid env (maxPlainFrom env (evalBid env b) bs)) = []
      · rw [hfil, List.filter_cons, hfil]
        have hM : maxPlainFrom env (evalBid env b) bs = evalBid env b := by
          rcases maxPlainFrom_attained env bs (evalBid env b) with h1 | ⟨c, hc, hceq⟩
          · exact h1
          · have hcmem : c ∈ bs.filter
                (isMaxBid env (maxPlainFrom env (evalBid env b) bs)) :=
              List.mem_filter.mpr ⟨hc, by simpa [isMaxBid] using hceq⟩
            rw [hfil] at hcmem
            exact absurd hcmem (List.not_mem_nil c)
        have hpb : isMaxBid env (maxPlainFrom env (evalBid env b) bs) b = true := by
          simp [isMaxBid, hM]
        rw [if_pos hpb]
        rfl
      · exact (lastFiltered_cons _ b bs w b.bidder hfil).symm
    · rw [if_neg h, nat_max_eq_left (le_of_not_le h), ih]
      have hpb : isMaxBid env (maxPlainFrom env m bs) b = false := by
        have hlt : evalBid env b < m := lt_of_not_le h
        have hle : m ≤ maxPlainFrom env m bs := le_maxPlainFrom env bs m
        simp [isMaxBid]
        omega
      rw [List.filter_cons, if_neg (by simp [hpb])]

/-- Plaintext backend for the 3-bid tie scenario: amounts 10, 20, 20 for the
externally submitted ciphertexts 1, 2, 3. -/
def tieEnv : Nat → Nat := fun n => if n = 1 then 10 else 20

/-- C1: for every non-empty bid ledger, the tournament fold in
`findHighestBidder` selects as max the encrypted amount whose underlying
plaintext is the true maximum of all bids' plaintexts, and on ties the
recorded winner is the last-submitted among the maximal equal bids (pinned by
the scenario with amounts [10, 20, 20] from bidders 1, 2, 3 yielding
winner 3). -/
theorem tournament_max_correct_and_last_tied_wins (env : Nat → Nat)
    (first : Bid) (rest : List Bid) :
    evalH env (tournament env first rest).1 = specMaxPlain env (first :: rest) ∧
    (tournament env first rest).2 =
      specLastMaxBidder env (first :: rest) first.bidder ∧
    (tournament tieEnv ⟨1, H.ext 1⟩ [⟨2, H.ext 2⟩, ⟨3, H.ext 3⟩]).2 = 3 := by
  have hpair := foldl_tournamentStep_spec env rest first.encryptedBidAmount
    first.bidder
  have hM : specMaxPlain env (first :: rest) =
      maxPlainFrom env (evalH env first.encryptedBidAmount) rest := by
    rw [specMaxPlain, maxPlainFrom_cons, nat_max_eq_right (Nat.zero_le _)]
    exact rfl
  refine ⟨?_, ?_, by decide⟩
  · have h1 : evalH env (tournament env first rest).1 =
        (specFold env (evalH env first.encryptedBidAmount, first.bidder)
          rest).1 :=
      congrArg Prod.fst hpair
    rw [h1, specFold_fst, hM]
  · have h2 : (tournament env first rest).2 =
        (specFold env (evalH env first.encryptedBidAmount, first.bidder)
          rest).2 :=
      congrArg Prod.snd hpair
    rw [h2, specFold_snd, specLastMaxBidder, hM]
    by_cases hfil : rest.filter
        (isMaxBid env
          (maxPlainFrom env (evalH env first.encryptedBidAmount) rest)) = []
    · have hM0 : maxPlainFrom env (evalH env first.encryptedBidAmount) rest =
          evalH env first.encryptedBidAmount := by
        rcases maxPlainFrom_attained env rest
            (evalH env first.encryptedBidAmount) with h1 | ⟨c, hc, hceq⟩
        · exact h1
        · have hcmem : c ∈ rest.filter
              (isMaxBid env
                (maxPlainFrom env (evalH env first.encryptedBidAmount) rest)) :=
            List.mem_filter.mpr ⟨hc, by simpa [isMaxBid] using hceq⟩
          rw [hfil] at hcmem
          exact absurd hcmem (List.not_mem_nil c)
      have hpf : isMaxBid env
          (maxPlainFrom env (evalH env first.encryptedBidAmount) rest) first =
            true := by
        simp [isMaxBid, evalBid, hM0]
      rw [hfil, List.filter_cons, if_pos hpf, hfil]
      rfl
    · exact (lastFiltered_cons _ first rest first.bidder first.bidder hfil).symm

/-- C2: a decryption callback that succeeds finds the context unprocessed,
leaves it processed, and any later callback for the same request id fails
with `ReplayAttempt` regardless of the cleartexts and proof supplied. -/
theorem myCallback_replay_protection (env : Nat → Nat) (s : ContractState)
    (requestId cleartext : Nat) (proofValid : Bool) (s2 : ContractState)
    (evts : List Event)
    (h : myCallback env s requestId cleartext proofValid =
      Except.ok (s2, evts)) :
    (s.decryptionContexts requestId).processed = false ∧
    (s2.decryptionContexts requestId).processed = true ∧
    ∀ (c : Nat) (p : Bool),
      myCallback env s2 requestId c p = Except.error Err.ReplayAttempt := by
  unfold myCallback at h
  by_cases hp : (s.decryptionContexts requestId).processed = true
  · rw [if_pos hp] at h
    exact absurd h (by simp)
  · rw [if_neg hp] at h
    by_cases hb : s.bids = []
    · rw [if_pos hb] at h
      exact absurd h (by simp)
    · rw [if_neg hb] at h
      by_cases hh : ledgerHash env s ≠ (s.decryptionContexts requestId).stateHash
      · rw [if_pos hh] at h
        exact absurd h (by simp)
      · rw [if_neg hh] at h
        by_cases hpv : proofValid = true
        · rw [if_pos hpv] at h
          rw [Except.ok.injEq, Prod.mk.injEq] at h
          obtain ⟨hs2, hevts⟩ := h
          have hproc : (s2.decryptionContexts requestId).processed = true := by
            rw [← hs2]
            simp
          refine ⟨by simpa using hp, hproc, ?_⟩
          intro c p
          unfold myCallback
          rw [if_pos hproc]
        · rw [if_neg hpv] at h
          exact absurd h (by simp)

/-- Concrete pre-callback state for exercising the replay protection: one bid
from bidder 1, a pending request with id 7 whose stored fingerprint matches
the ledger. -/
def c2State : ContractState where
  owner := 100
  isProvider := Function.update (fun _ => false) 100 true
  paused := false
  cooldownSeconds := 60
  lastSubmissionTime := fun _ => 0
  lastDecryptionRequestTime := fun _ => 0
  bids := [⟨1, H.ext 1⟩]
  currentBatchId := 1
  batchOpen := false
  decryptionContexts := Function.update (fun _ => ⟨0, StateHash.zero, false⟩) 7
    ⟨1, StateHash.keccak [B32.handle (H.ext 1), B32.addrHash 1] 42, false⟩
  selfAddr := 42

/-- The state after the first successful callback on `c2State`. -/
def c2After : ContractState :=
  { c2State with
    decryptionContexts := Function.update c2State.decryptionContexts 7
      ⟨1, StateHash.keccak [B32.handle (H.ext 1), B32.addrHash 1] 42, true⟩ }

theorem myCallback_replay_protection_witness :
    (c2State.decryptionContexts 7).processed = false ∧
    (c2After.decryptionContexts 7).processed = true ∧
    myCallback tieEnv c2After 7 99 false = Except.error Err.ReplayAttempt := by
  have h := myCallback_replay_protection tieEnv c2State 7 15 true c2After
    [Event.AuctionSettled 7 1 1 15] rfl
  exact ⟨h.1, h.2.1, h.2.2 99 false⟩

/-- A freshly deployed contract (owner 100, contract address 42) that the
owner has paused. -/
def pausedState : ContractState :=
  { initialState 100 42 with paused := true }

/-- C4 counterexample: while paused, `addProvider`, `removeProvider` and
`setCooldownSeconds` do not fail with `PausedError`; called by the owner they
succeed, because none of them carries the `whenNotPaused` modifier. -/
theorem paused_admin_ops_succeed_cex :
    pausedState.paused = true ∧
    addProvider pausedState 100 5 ≠ Except.error Err.PausedError ∧
    removeProvider pausedState 100 100 ≠ Except.error Err.PausedError ∧
    setCooldownSeconds pausedState 100 30 ≠ Except.error Err.PausedError ∧
    (addProvider pausedState 100 5).isOk = true ∧
    (removeProvider pausedState 100 100).isOk = true ∧
    (setCooldownSeconds pausedState 100 30).isOk = true :=
  ⟨rfl, fun h => Except.noConfusion h, fun h => Except.noConfusion h,
    fun h => Except.noConfusion h, rfl, rfl, rfl⟩

/-- C4 amended: while paused, the owner-only configuration operations
`addProvider`, `removeProvider` and `setCooldownSeconds` ignore the pause
flag and succeed; the operations that do fail with `PausedError` while paused
are `pause`, `openBatch`, `closeBatch`, `submitBid` (for a provider caller)
and `findHighestBidder` (for the owner). -/
theorem paused_operation_behavior (s : ContractState) (p newCd : Nat)
    (hpaused : s.paused = true) :
    (addProvider s s.owner p).isOk = true ∧
    (removeProvider s s.owner p).isOk = true ∧
    (newCd ≠ 0 → (setCooldownSeconds s s.owner newCd).isOk = true) ∧
    pause s s.owner = Except.error Err.PausedError ∧
    openBatch s s.owner = Except.error Err.PausedError ∧
    closeBatch s s.owner = Except.error Err.PausedError ∧
    (∀ sender now amt, s.isProvider sender = true →
      submitBid s sender now amt = Except.error Err.PausedError) ∧
    (∀ env now rid,
      findHighestBidder env s s.owner now rid =
        Except.error Err.PausedError) := by
  refine ⟨?_, ?_, ?_, ?_, ?_, ?_, ?_, ?_⟩
  · unfold addProvider
    rw [if_neg (by simp)]
    by_cases hp : s.isProvider p = true
    · rw [if_pos hp]; rfl
    · rw [if_neg hp]; rfl
  · unfold removeProvider
    rw [if_neg (by simp)]
    by_cases hp : s.isProvider p = true
    · rw [if_pos hp]; rfl
    · rw [if_neg hp]; rfl
  · intro hcd
    unfold setCooldownSeconds
    rw [if_neg (by simp), if_neg hcd]
    rfl
  · unfold pause
    rw [if_neg (by simp), if_pos hpaused]
  · unfold openBatch
    rw [if_neg (by simp), if_pos hpaused]
  · unfold closeBatch
    rw [if_neg (by simp), if_pos hpaused]
  · intro sender now amt hprov
    unfold submitBid
    rw [if_neg (by simp [hprov]), if_pos hpaused]
  · intro env now rid
    unfold findHighestBidder
    rw [if_neg (by simp), if_pos hpaused]

theorem paused_operation_behavior_witness :
    (addProvider pausedState 100 5).isOk = true ∧
    openBatch pausedState 100 = Except.error Err.PausedError ∧
    submitBid pausedState 100 1000 (H.ext 1) =
      Except.error Err.PausedError := by
  have h := paused_operation_behavior pausedState 5 30 rfl
  exact ⟨h.1, h.2.2.2.2.1, h.2.2.2.2.2.2.1 100 1000 (H.ext 1) rfl⟩

/-- C5 counterexample: with the contract paused and a caller that is not a
provider, `submitBid` fails with `NotProvider`, not `PausedError` — the
source's modifier order runs `onlyProvider` before `whenNotPaused`. -/
theorem submitBid_paused_nonprovider_cex :
    pausedState.paused = true ∧
    pausedState.isProvider 9 = false ∧
    submitBid pausedState 9 1000 (H.ext 1) = Except.error Err.NotProvider ∧
    Err.NotProvider ≠ Err.PausedError :=
  ⟨rfl, rfl, rfl, by decide⟩

/-- C5 amended: guarded operations check role membership first, then the
pause flag, then the cooldown; in particular `submitBid` fails with
`NotProvider` for a non-provider caller even while paused, fails with
`PausedError` for a provider caller while paused, and only then can fail with
`CooldownActive`; `findHighestBidder` likewise checks `NotOwner` before
`PausedError`. -/
theorem guard_order_role_then_pause_then_cooldown (s : ContractState)
    (sender : Address) (now : Nat) (amt : H) (env : Nat → Nat) (rid : Nat) :
    (s.isProvider sender = false →
      submitBid s sender now amt = Except.error Err.NotProvider) ∧
    (s.isProvider sender = true → s.paused = true →
      submitBid s sender now amt = Except.error Err.PausedError) ∧
    (s.isProvider sender = true → s.paused = false →
      now < s.lastSubmissionTime sender + s.cooldownSeconds →
      submitBid s sender now amt = Except.error Err.CooldownActive) ∧
    (sender ≠ s.owner →
      findHighestBidder env s sender now rid = Except.error Err.NotOwner) ∧
    (sender = s.owner → s.paused = true →
      findHighestBidder env s sender now rid =
        Except.error Err.PausedError) := by
  refine ⟨?_, ?_, ?_, ?_, ?_⟩
  · intro hnp
    unfold submitBid
    rw [if_pos (by simp [hnp])]
  · intro hprov hpaused
    unfold submitBid
    rw [if_neg (by simp [hprov]), if_pos hpaused]
  · intro hprov hnp hcd
    unfold submitBid
    rw [if_neg (by simp [hprov]), if_neg (by simp [hnp]), if_pos hcd]
  · intro hno
    unfold findHighestBidder
    rw [if_pos hno]
  · intro howner hpaused
    unfold findHighestBidder
    rw [if_neg (by simp [howner]), if_pos hpaused]

theorem guard_order_witness :
    submitBid pausedState 9 1000 (H.ext 1) = Except.error Err.NotProvider ∧
    submitBid pausedState 100 1000 (H.ext 1) =
      Except.error Err.PausedError ∧
    findHighestBidder tieEnv pausedState 9 1000 7 =
      Except.error Err.NotOwner := by
  have h9 := guard_order_role_then_pause_then_cooldown pausedState 9 1000
    (H.ext 1) tieEnv 7
  have h100 := guard_order_role_then_pause_then_cooldown pausedState 100 1000
    (H.ext 1) tieEnv 7
  exact ⟨h9.1 rfl, h100.2.1 rfl rfl, h9.2.2.2.1 (by decide)⟩

/-- C6: a successful `openBatch` (owner caller, not paused) increments
`currentBatchId`, sets the batch open flag, clears the bid ledger, and emits
`BatchOpened` with the new batch id. -/
theorem openBatch_success_effects (s : ContractState) (sender : Address)
    (howner : sender = s.owner) (hnp : s.paused = false) :
    openBatch s sender =
      Except.ok ({ s with
          currentBatchId := s.currentBatchId + 1,
          batchOpen := true,
          bids := [] },
        [Event.BatchOpened (s.currentBatchId + 1)]) := by
  unfold openBatch
  rw [if_neg (by simp [howner]), if_neg (by simp [hnp])]

theorem openBatch_success_effects_witness :
    openBatch (initialState 100 42) 100 =
      Except.ok ({ initialState 100 42 with
          currentBatchId := 1,
          batchOpen := true,
          bids := [] },
        [Event.BatchOpened 1]) :=
  openBatch_success_effects (initialState 100 42) 100 rfl rfl

/-- C9: `openBatch` has no precondition that the current batch be closed:
called by the owner while a batch is open and not paused, it succeeds,
starting a new batch and discarding the open batch's bids, and the emitted
events contain no `BatchClosed` for the discarded batch. -/
theorem openBatch_while_open_discards (s : ContractState) (sender : Address)
    (howner : sender = s.owner) (hnp : s.paused = false)
    (hopen : s.batchOpen = true) :
    openBatch s sender =
      Except.ok ({ s with
          currentBatchId := s.currentBatchId + 1,
          batchOpen := true,
          bids := [] },
        [Event.BatchOpened (s.currentBatchId + 1)]) ∧
    ∀ b, Event.BatchClosed b ∉ [Event.BatchOpened (s.currentBatchId + 1)] := by
  refine ⟨?_, ?_⟩
  · unfold openBatch
    rw [if_neg (by simp [howner]), if_neg (by simp [hnp])]
  · intro b
    simp

/-- A state with an open batch holding one bid. -/
def openState : ContractState :=
  { initialState 100 42 with
    batchOpen := true,
    currentBatchId := 1,
    bids := [⟨1, H.ext 1⟩] }

theorem openBatch_while_open_discards_witness :
    openBatch openState 100 =
      Except.ok ({ openState with
          currentBatchId := 2,
          batchOpen := true,
          bids := [] },
        [Event.BatchOpened 2]) ∧
    Event.BatchClosed 1 ∉ [Event.BatchOpened 2] := by
  have h := openBatch_while_open_discards openState 100 rfl rfl rfl
  exact ⟨h.1, h.2 1⟩

/-- C7: a successful `submitBid` records the caller's submission time; a
second submission by the same caller strictly before that time plus
`cooldownSeconds` fails with `CooldownActive`, and once the window has
elapsed (and the ciphertext is initialized) it succeeds again. -/
theorem submitBid_cooldown_behavior (s : ContractState) (sender : Address)
    (now : Nat) (amt : H) (s2 : ContractState) (evts : List Event)
    (h : submitBid s sender now amt = Except.ok (s2, evts)) :
    s2.lastSubmissionTime sender = now ∧
    (∀ now2 amt2, now2 < now + s.cooldownSeconds →
      submitBid s2 sender now2 amt2 = Except.error Err.CooldownActive) ∧
    (∀ now2 amt2, now + s.cooldownSeconds ≤ now2 → isInitialized amt2 = true →
      (submitBid s2 sender now2 amt2).isOk = true) := by
  unfold submitBid at h
  by_cases h1 : (!s.isProvider sender) = true
  · rw [if_pos h1] at h
    exact absurd h (by simp)
  · rw [if_neg h1] at h
    by_cases h2 : s.paused = true
    · rw [if_pos h2] at h
      exact absurd h (by simp)
    · rw [if_neg h2] at h
      by_cases h3 : now < s.lastSubmissionTime sender + s.cooldownSeconds
      · rw [if_pos h3] at h
        exact absurd h (by simp)
      · rw [if_neg h3] at h
        by_cases h4 : (!s.batchOpen) = true
        · rw [if_pos h4] at h
          exact absurd h (by simp)
        · rw [if_neg h4] at h
          by_cases h5 : (!isInitialized amt) = true
          · rw [if_pos h5] at h
            exact absurd h (by simp)
          · rw [if_neg h5] at h
            rw [Except.ok.injEq, Prod.mk.injEq] at h
            obtain ⟨hs2, hevts⟩ := h
            subst hs2
            refine ⟨by simp, ?_, ?_⟩
            · intro now2 amt2 hcd
              unfold submitBid
              rw [if_neg (by simpa using h1), if_neg (by simpa using h2),
                if_pos (by simpa using hcd)]
            · intro now2 amt2 hge hinit
              unfold submitBid
              rw [if_neg (by simpa using h1), if_neg (by simpa using h2),
                if_neg (by simp; omega), if_neg (by simpa using h4),
                if_neg (by simp [hinit])]
              rfl

/-- The state after the first successful submission in the cooldown
scenario: provider 1 submitted at time 1000 into open batch 1. -/
def subState2 : ContractState :=
  { openState with
    isProvider := Function.update openState.isProvider 1 true,
    lastSubmissionTime :=
      Function.update openState.lastSubmissionTime 1 1000,
    bids := openState.bids ++ [⟨1, H.ext 2⟩] }

theorem submitBid_cooldown_behavior_witness :
    subState2.lastSubmissionTime 1 = 1000 ∧
    submitBid subState2 1 1030 (H.ext 3) = Except.error Err.CooldownActive ∧
    (submitBid subState2 1 1060 (H.ext 3)).isOk = true := by
  have h := submitBid_cooldown_behavior
    { openState with isProvider := Function.update openState.isProvider 1 true }
    1 1000 (H.ext 2) subState2 [Event.BidSubmitted 1 1 (H.ext 2)] rfl
  exact ⟨h.1, h.2.1 1030 (H.ext 3) (by decide), h.2.2 1060 (H.ext 3)
    (by decide) rfl⟩

/-- C10: a successful `findHighestBidder` changes only the decryption
context stored under the issued request id and the caller's
last-decryption-request timestamp; the ledger, batch id, open flag, owner,
provider set, pause flag, cooldown, submission timestamps and contract
address are untouched. -/
theorem findHighestBidder_frame (env : Nat → Nat) (s : ContractState)
    (sender : Address) (now requestId : Nat) (s2 : ContractState)
    (evts : List Event)
    (h : findHighestBidder env s sender now requestId =
      Except.ok (s2, evts)) :
    s2.bids = s.bids ∧ s2.currentBatchId = s.currentBatchId ∧
    s2.batchOpen = s.batchOpen ∧ s2.owner = s.owner ∧
    s2.isProvider = s.isProvider ∧ s2.paused = s.paused ∧
    s2.cooldownSeconds = s.cooldownSeconds ∧
    s2.lastSubmissionTime = s.lastSubmissionTime ∧
    s2.selfAddr = s.selfAddr ∧
    (∀ r, r ≠ requestId → s2.decryptionContexts r = s.decryptionContexts r) ∧
    s2.decryptionContexts requestId =
      ⟨s.currentBatchId, ledgerHash env s, false⟩ ∧
    s2.lastDecryptionRequestTime sender = now ∧
    (∀ a, a ≠ sender →
      s2.lastDecryptionRequestTime a = s.lastDecryptionRequestTime a) := by
  unfold findHighestBidder at h
  by_cases h1 : sender ≠ s.owner
  · rw [if_pos h1] at h
    exact absurd h (by simp)
  · rw [if_neg h1] at h
    by_cases h2 : s.paused = true
    · rw [if_pos h2] at h
      exact absurd h (by simp)
    · rw [if_neg h2] at h
      by_cases h3 : now < s.lastDecryptionRequestTime sender + s.cooldownSeconds
      · rw [if_pos h3] at h
        exact absurd h (by simp)
      · rw [if_neg h3] at h
        by_cases h4 : s.bids = []
        · rw [if_pos h4] at h
          exact absurd h (by simp)
        · rw [if_neg h4] at h
          rw [Except.ok.injEq, Prod.mk.injEq] at h
          obtain ⟨hs2, hevts⟩ := h
          subst hs2
          refine ⟨rfl, rfl, rfl, rfl, rfl, rfl, rfl, rfl, rfl, ?_, ?_, ?_, ?_⟩
          · intro r hr
            simp [Function.update_noteq hr]
          · simp
          · simp
          · intro a ha
            simp [Function.update_noteq ha]

/-- The state after a successful `findHighestBidder` on `openState`
(request id 7, caller 100, time 1000). -/
def fhb2 : ContractState :=
  { openState with
    decryptionContexts := Function.update openState.decryptionContexts 7
      ⟨openState.currentBatchId, ledgerHash tieEnv openState, false⟩,
    lastDecryptionRequestTime :=
      Function.update openState.lastDecryptionRequestTime 100 1000 }

theorem findHighestBidder_frame_witness :
    fhb2.bids = openState.bids ∧
    fhb2.decryptionContexts 3 = openState.decryptionContexts 3 ∧
    fhb2.decryptionContexts 7 =
      ⟨openState.currentBatchId, ledgerHash tieEnv openState, false⟩ ∧
    fhb2.lastDecryptionRequestTime 100 = 1000 := by
  obtain ⟨hb, hcb, hbo, how, hip, hpa, hcd, hlst, hsa, hother, hctx, hldr,
    hlda⟩ := findHighestBidder_frame tieEnv openState 100 1000 7 fhb2
      [Event.DecryptionRequested 7 openState.currentBatchId
        (ledgerHash tieEnv openState)] rfl
  exact ⟨hb, hother 3 (by decide), hctx, hldr⟩

/-- C3 counterexample: from the post-request state `c2State` (pending
request 7, stored fingerprint matching the one-bid ledger — the unmutated
callback succeeds), opening a new batch empties the ledger and the callback
then fails with `NoBidsInBatch`, not `StateMismatch`. -/
theorem callback_after_openBatch_cex :
    (myCallback tieEnv c2State 7 15 true).isOk = true ∧
    (openBatch c2State 100).isOk = true ∧
    andThen (openBatch c2State 100) (fun s => myCallback tieEnv s 7 15 true) =
      Except.error Err.NoBidsInBatch ∧
    Err.NoBidsInBatch ≠ Err.StateMismatch := by
  refine ⟨rfl, rfl, rfl, by decide⟩

/-- C3 amended: for a pending (unprocessed) request, if the ledger was
emptied by opening a new batch the callback fails with `NoBidsInBatch`;
if the ledger at callback time is non-empty but its recomputed fingerprint
disagrees with the stored one, the callback fails with `StateMismatch`. -/
theorem myCallback_mutation_detection (env : Nat → Nat) (s : ContractState)
    (requestId cleartext : Nat) (proofValid : Bool)
    (hp : (s.decryptionContexts requestId).processed = false) :
    (s.bids = [] →
      myCallback env s requestId cleartext proofValid =
        Except.error Err.NoBidsInBatch) ∧
    (s.bids ≠ [] →
      ledgerHash env s ≠ (s.decryptionContexts requestId).stateHash →
      myCallback env s requestId cleartext proofValid =
        Except.error Err.StateMismatch) := by
  constructor
  · intro hb
    unfold myCallback
    rw [if_neg (by simp [hp]), if_pos hb]
  · intro hb hh
    unfold myCallback
    rw [if_neg (by simp [hp]), if_neg hb, if_pos hh]

/-- `c2State` after a new batch was opened: ledger empty, request 7 still
pending. -/
def c3Open : ContractState :=
  { c2State with currentBatchId := 2, batchOpen := true, bids := [] }

/-- `c2State` with the ledger replaced by a different bid (as after a new
batch was opened and a fresh bid submitted), request 7 still pending. -/
def c3Tampered : ContractState :=
  { c2State with bids := [⟨2, H.ext 2⟩] }

theorem myCallback_mutation_detection_witness :
    myCallback tieEnv c3Open 7 15 true = Except.error Err.NoBidsInBatch ∧
    myCallback tieEnv c3Tampered 7 15 true =
      Except.error Err.StateMismatch := by
  have h1 := myCallback_mutation_detection tieEnv c3Open 7 15 true rfl
  have h2 := myCallback_mutation_detection tieEnv c3Tampered 7 15 true rfl
  exact ⟨h1.1 rfl, h2.2 (by decide) (by decide)⟩

/-- Plaintext backend for the end-to-end scenario: ciphertexts 1, 2, 3 hold
the amounts 5, 15, 9 of bidders 1 (A), 2 (B), 3 (C). -/
def e2eEnv : Nat → Nat :=
  fun n => if n = 1 then 5 else if n = 2 then 15 else if n = 3 then 9 else 0

/-- The ledger contents of the end-to-end scenario. -/
def e2eBids : List Bid := [⟨1, H.ext 1⟩, ⟨2, H.ext 2⟩, ⟨3, H.ext 3⟩]

/-- The end-to-end run: deploy (owner 100), add providers 1, 2, 3, open a
batch, submit the three bids, close the batch, request decryption
(request id 7), then deliver the callback with cleartext 15 and a valid
proof. -/
def e2eFull : Outcome :=
  andThen (andThen (andThen (andThen (andThen (andThen (andThen (andThen
    (addProvider (initialState 100 42) 100 1)
    (fun s => addProvider s 100 2))
    (fun s => addProvider s 100 3))
    (fun s => openBatch s 100))
    (fun s => submitBid s 1 1000 (H.ext 1)))
    (fun s => submitBid s 2 1000 (H.ext 2)))
    (fun s => submitBid s 3 1000 (H.ext 3)))
    (fun s => closeBatch s 100))
    (fun s => andThen (findHighestBidder e2eEnv s 100 1001 7)
      (fun s2 => myCallback e2eEnv s2 7 15 true))

/-- The events the end-to-end run emits. -/
def e2eTrace : List Event :=
  match e2eFull with
  | .ok (_, evts) => evts
  | .error _ => []

/-- The plaintext bid amount an event makes public: only the settlement
event carries one (bid submissions carry opaque ciphertext handles). -/
def revealedAmount : Event → Option Nat
  | .AuctionSettled _ _ _ amount => some amount
  | _ => none

/-- C8: the end-to-end run succeeds, its settlement event reports winner 2
(bidder B) with amount 15, and across the whole emitted trace the only
plaintext bid amount revealed is the winning 15, by the settlement event. -/
theorem e2e_settles_winner_B_amount_15 :
    e2eFull.isOk = true ∧
    e2eTrace = [Event.ProviderAdded 1, Event.ProviderAdded 2,
      Event.ProviderAdded 3, Event.BatchOpened 1,
      Event.BidSubmitted 1 1 (H.ext 1), Event.BidSubmitted 2 1 (H.ext 2),
      Event.BidSubmitted 3 1 (H.ext 3), Event.BatchClosed 1,
      Event.DecryptionRequested 7 1
        (StateHash.keccak (ctsOf (tournamentOf e2eEnv e2eBids)) 42),
      Event.AuctionSettled 7 1 2 15] ∧
    e2eTrace.filterMap revealedAmount = [15] := by
  refine ⟨rfl, rfl, rfl⟩

end AuctionSeal
